import Mathlib

/-!
Verification of the ai-coustics speech-enhancement SDK core
(`aic-sdk-sys/include/aic.h`) against its design specification.

The repository ships only the C interface header; the processing core
itself (Frame Adapter, Channel Mixer, Parameter Store, VAD) is closed
source.  Every behavioural definition below is therefore modelled from
the specification and the header's documentation.  Audio samples are
modelled as rationals (`ℚ`): the C `float` arithmetic is replaced by
exact arithmetic, so "bit-exact" statements become exact equalities.
-/

namespace AicSdk

/-- Error codes, translated one-to-one from `AicErrorCode` in `aic.h`
(including the numeric values of the C enum). -/
inductive AicErrorCode where
  | AIC_ERROR_CODE_SUCCESS
  | AIC_ERROR_CODE_NULL_POINTER
  | AIC_ERROR_CODE_PARAMETER_OUT_OF_RANGE
  | AIC_ERROR_CODE_MODEL_NOT_INITIALIZED
  | AIC_ERROR_CODE_AUDIO_CONFIG_UNSUPPORTED
  | AIC_ERROR_CODE_AUDIO_CONFIG_MISMATCH
  | AIC_ERROR_CODE_ENHANCEMENT_NOT_ALLOWED
  | AIC_ERROR_CODE_INTERNAL_ERROR
  | AIC_ERROR_CODE_PARAMETER_FIXED
  | AIC_ERROR_CODE_LICENSE_FORMAT_INVALID
  | AIC_ERROR_CODE_LICENSE_VERSION_UNSUPPORTED
  | AIC_ERROR_CODE_LICENSE_EXPIRED
  | AIC_ERROR_CODE_MODEL_INVALID
  | AIC_ERROR_CODE_MODEL_VERSION_UNSUPPORTED
  | AIC_ERROR_CODE_MODEL_FILE_PATH_INVALID
  | AIC_ERROR_CODE_FILE_SYSTEM_ERROR
  | AIC_ERROR_CODE_MODEL_DATA_UNALIGNED
deriving DecidableEq, Repr

/-- Numeric value of each error code, from the C enum in `aic.h`. -/
def AicErrorCode.toUInt32Value : AicErrorCode → Nat
  | .AIC_ERROR_CODE_SUCCESS => 0
  | .AIC_ERROR_CODE_NULL_POINTER => 1
  | .AIC_ERROR_CODE_PARAMETER_OUT_OF_RANGE => 2
  | .AIC_ERROR_CODE_MODEL_NOT_INITIALIZED => 3
  | .AIC_ERROR_CODE_AUDIO_CONFIG_UNSUPPORTED => 4
  | .AIC_ERROR_CODE_AUDIO_CONFIG_MISMATCH => 5
  | .AIC_ERROR_CODE_ENHANCEMENT_NOT_ALLOWED => 6
  | .AIC_ERROR_CODE_INTERNAL_ERROR => 7
  | .AIC_ERROR_CODE_PARAMETER_FIXED => 8
  | .AIC_ERROR_CODE_LICENSE_FORMAT_INVALID => 50
  | .AIC_ERROR_CODE_LICENSE_VERSION_UNSUPPORTED => 51
  | .AIC_ERROR_CODE_LICENSE_EXPIRED => 52
  | .AIC_ERROR_CODE_MODEL_INVALID => 100
  | .AIC_ERROR_CODE_MODEL_VERSION_UNSUPPORTED => 101
  | .AIC_ERROR_CODE_MODEL_FILE_PATH_INVALID => 102
  | .AIC_ERROR_CODE_FILE_SYSTEM_ERROR => 103
  | .AIC_ERROR_CODE_MODEL_DATA_UNALIGNED => 104

/-- Configurable processor parameters, from `AicProcessorParameter` in `aic.h`. -/
inductive AicProcessorParameter where
  | AIC_PROCESSOR_PARAMETER_BYPASS
  | AIC_PROCESSOR_PARAMETER_ENHANCEMENT_LEVEL
  | AIC_PROCESSOR_PARAMETER_VOICE_GAIN
deriving DecidableEq, Repr

/-- Configurable VAD parameters, from `AicVadParameter` in `aic.h`. -/
inductive AicVadParameter where
  | AIC_VAD_PARAMETER_SPEECH_HOLD_DURATION
  | AIC_VAD_PARAMETER_SENSITIVITY
  | AIC_VAD_PARAMETER_MINIMUM_SPEECH_DURATION
deriving DecidableEq, Repr

/-- Modelled from the spec: the Parameter Store's processor fields
(bypass, enhancement level, voice gain); the store implementation is not
in the repository.  Defaults are the ones documented in `aic.h`:
bypass 0.0, enhancement level 1.0, voice gain 1.0. -/
structure Params where
  bypass : ℚ
  enhancementLevel : ℚ
  voiceGain : ℚ
deriving DecidableEq, Repr

def defaultParams : Params := ⟨0, 1, 1⟩

/-- Modelled from the spec: worker of `enhanceWindows`, structurally
recursive on a fuel bound of the input length so that it reduces in the
kernel. -/
def enhanceWindowsGo (e : List ℚ → List ℚ) (W : Nat) : Nat → List ℚ → List ℚ
  | 0, _ => []
  | fuel + 1, xs =>
      if 0 < W ∧ W ≤ xs.length then
        e (xs.take W) ++ enhanceWindowsGo e W fuel (xs.drop W)
      else []

/-- Modelled from the spec: the Inference Adapter applied window-wise.
`enhanceWindows e W xs` splits `xs` into consecutive windows of exactly
`W` samples (FIFO order, never a fractional window), applies the black-box
enhancement `e` to each, and concatenates the results; a trailing
remainder shorter than `W` produces no output. -/
def enhanceWindows (e : List ℚ → List ℚ) (W : Nat) (xs : List ℚ) : List ℚ :=
  enhanceWindowsGo e W xs.length xs

/-- Modelled from the spec: the Frame Adapter's mutable state — the
ring buffer of pending input samples not yet forming a complete native
window, and the queue of already-inferred output samples awaiting pull.
At initialization the queue is pre-filled with `delay` zeros (warm-up
silence), which realizes the documented zero-filling of not-yet-available
output. -/
structure AdapterState where
  pending : List ℚ
  queue : List ℚ
deriving DecidableEq, Repr

/-- Modelled from the spec: the Frame Adapter state right after
initialization: empty pending buffer, queue pre-filled with `delay`
zeros of warm-up silence. -/
def adapterInit (delay : Nat) : AdapterState :=
  ⟨[], List.replicate delay 0⟩

/-- Modelled from the spec: `pull(count)` returns `count` samples of
already-inferred output in production order, zero-filling (silence) for
samples not yet available.  Returns the pulled samples and the remaining
queue. -/
def pullSamples (q : List ℚ) (count : Nat) : List ℚ × List ℚ :=
  (q.take count ++ List.replicate (count - q.length) 0, q.drop count)

/-- Modelled from the spec: one `process` call of the Frame Adapter on a
mono frame: push the frame into the ring buffer, drain all complete
native windows through the inference function `e`, append the enhanced
samples to the output queue, and pull exactly `frame.length` output
samples. -/
def processFrame (e : List ℚ → List ℚ) (W : Nat) (st : AdapterState)
    (frame : List ℚ) : List ℚ × AdapterState :=
  let buf := st.pending ++ frame
  let q := st.queue ++ enhanceWindows e W buf
  let pulled := pullSamples q frame.length
  (pulled.1, ⟨buf.drop (W * (buf.length / W)), pulled.2⟩)

/-- Modelled from the spec: repeated `process` calls of the Frame
Adapter over a list of host frames, concatenating the pulled output. -/
def runAdapter (e : List ℚ → List ℚ) (W : Nat) :
    AdapterState → List (List ℚ) → List ℚ × AdapterState
  | st, [] => ([], st)
  | st, f :: fs =>
      let p := processFrame e W st f
      let r := runAdapter e W p.2 fs
      (p.1 ++ r.1, r.2)

/-- Modelled from the spec: the extra buffering delay of the Frame
Adapter for host frame size `F` against native window size `W` (with
fixed frame counts): the minimal warm-up pre-fill that guarantees the
output queue never underruns, `W - gcd F W`.  When `F` is a multiple of
`W` this is zero; the model's intrinsic delay is absorbed into the
black-box enhancement. -/
def adapterDelay (F W : Nat) : Nat := W - Nat.gcd F W

/-- Modelled from the spec: the immutable `ModelDescriptor` behind an
`AicModel` handle — native sample rate and native window size in frames
(the model file loader itself is an external collaborator). -/
structure AicModel where
  nativeSampleRate : Nat
  nativeWindowFrames : Nat
deriving DecidableEq, Repr

/-- Modelled from the spec: `aic_model_get_optimal_num_frames` — the
model operates on a fixed time window, so the optimal frame count at a
given sample rate scales the native window frames by the rate ratio
(480 frames at 48 kHz become 160 at 16 kHz for a 10 ms window). -/
def aic_model_get_optimal_num_frames (m : AicModel) (sampleRate : Nat) : Nat :=
  m.nativeWindowFrames * sampleRate / m.nativeSampleRate

/-- Modelled from the spec: the per-stream `ProcessorState` behind an
`AicProcessor` handle: configuration fixed at initialize, the live
Parameter Store, the mono enhancement Frame Adapter, and one
latency-compensation delay line per channel (the bypass/dry path reuses
the same ring-buffer mechanism as the enhancement path). -/
structure Processor where
  initialized : Bool
  sampleRate : Nat
  numChannels : Nat
  numFrames : Nat
  allowVariableFrames : Bool
  nativeWindow : Nat
  delay : Nat
  params : Params
  enhAdapter : AdapterState
  delayLines : List AdapterState
deriving DecidableEq, Repr

/-- Modelled from the spec: `aic_processor_create` — a fresh,
uninitialized processor built from a model descriptor, with the
documented parameter defaults.  Before initialization the reported
delay is the base delay at the optimal configuration (zero extra
buffering in this model, whose black box absorbs intrinsic delay). -/
def aic_processor_create (m : AicModel) : Processor :=
  { initialized := false
    sampleRate := m.nativeSampleRate
    numChannels := 0
    numFrames := 0
    allowVariableFrames := false
    nativeWindow := m.nativeWindowFrames
    delay := 0
    params := defaultParams
    enhAdapter := adapterInit 0
    delayLines := [] }

/-- Modelled from the spec: `aic_processor_initialize` — validates the
audio configuration (sample rate 8000–192000, at least one channel and
one frame, per `aic.h`), computes the native window size at the
configured rate, sizes the warm-up delay (larger when variable frame
counts are allowed, as documented), and allocates fresh ring buffers.
On failure the processor is left unchanged. -/
def aic_processor_initialize (m : AicModel) (P : Processor) (sampleRate : Nat)
    (numChannels : Nat) (numFrames : Nat) (allowVariableFrames : Bool) :
    AicErrorCode × Processor :=
  if sampleRate < 8000 ∨ 192000 < sampleRate ∨ numChannels = 0 ∨ numFrames = 0 then
    (.AIC_ERROR_CODE_AUDIO_CONFIG_UNSUPPORTED, P)
  else
    let W := aic_model_get_optimal_num_frames m sampleRate
    let d := if allowVariableFrames then W - 1 else adapterDelay numFrames W
    (.AIC_ERROR_CODE_SUCCESS,
     { initialized := true
       sampleRate := sampleRate
       numChannels := numChannels
       numFrames := numFrames
       allowVariableFrames := allowVariableFrames
       nativeWindow := W
       delay := d
       params := P.params
       enhAdapter := adapterInit d
       delayLines := List.replicate numChannels (adapterInit d) })

/-- Modelled from the spec: the Channel Mixer's `to_mono` on a planar
frame — arithmetic mean across channels for each frame index. -/
def monoFrame (chans : List (List ℚ)) : List ℚ :=
  (List.range (chans.headD []).length).map
    (fun i => (chans.map (fun ch => ch.getD i 0)).sum / (chans.length : ℚ))

/-- Modelled from the spec: the per-sample dry/wet blend:
`original * (1 - enhancement_level) + mono_enhanced * voice_gain * enhancement_level`. -/
def blendSample (enhancementLevel voiceGain : ℚ) (original monoEnhanced : ℚ) : ℚ :=
  original * (1 - enhancementLevel) + monoEnhanced * voiceGain * enhancementLevel

/-- Modelled from the spec: the Channel Mixer's `blend_back` on one
channel buffer: every sample is blended against the enhanced mono
content scaled by voice gain. -/
def blend_back (original monoEnhanced : List ℚ) (enhancementLevel voiceGain : ℚ) :
    List ℚ :=
  List.zipWith (blendSample enhancementLevel voiceGain) original monoEnhanced

/-- Modelled from the spec: the in-place work of one successful planar
`process` call: downmix the frame to mono, run the mono through the
enhancement Frame Adapter, run every original channel through its
latency-compensation delay line (the same ring-buffer mechanism with
window size 1 and identity transform), and either pass the delayed
original through (bypass engaged, threshold one half in this model) or
blend it with the gained enhanced mono. -/
def processorStep (e : List ℚ → List ℚ) (P : Processor) (chans : List (List ℚ)) :
    List (List ℚ) × Processor :=
  let enh := processFrame e P.nativeWindow P.enhAdapter (monoFrame chans)
  let dls := List.zipWith (fun dl ch => processFrame (fun w => w) 1 dl ch)
    P.delayLines chans
  let outs := dls.map (fun r =>
    if (1 : ℚ) / 2 ≤ P.params.bypass then r.1
    else blend_back r.1 enh.1 P.params.enhancementLevel P.params.voiceGain)
  (outs, { P with enhAdapter := enh.2, delayLines := dls.map (fun r => r.2) })

/-- Modelled from the spec: `aic_processor_process_planar` — validates
initialization, channel/frame configuration (16 channels maximum for
planar) and the per-call authorization gate `allowed`; every failure
leaves the audio and the processor state untouched. -/
def aic_processor_process_planar (e : List ℚ → List ℚ) (allowed : Bool)
    (P : Processor) (audio : List (List ℚ)) (numChannels numFrames : Nat) :
    AicErrorCode × List (List ℚ) × Processor :=
  if P.initialized = false then
    (.AIC_ERROR_CODE_MODEL_NOT_INITIALIZED, audio, P)
  else if 16 < numChannels ∨ numChannels ≠ P.numChannels ∨
      (if P.allowVariableFrames then P.numFrames < numFrames
       else numFrames ≠ P.numFrames) then
    (.AIC_ERROR_CODE_AUDIO_CONFIG_MISMATCH, audio, P)
  else if allowed = false then
    (.AIC_ERROR_CODE_ENHANCEMENT_NOT_ALLOWED, audio, P)
  else
    let r := processorStep e P audio
    (.AIC_ERROR_CODE_SUCCESS, r.1, r.2)

/-- Interleaved (channel-minor) packing of a planar frame, following the
layout documented for `aic_processor_process_interleaved`:
`[ch0_f0, ch1_f0, ch0_f1, ch1_f1, ...]`. -/
def interleaveAudio (chans : List (List ℚ)) : List ℚ :=
  ((List.range (chans.headD []).length).map
    (fun i => chans.map (fun ch => ch.getD i 0))).flatten

/-- Sequential (channel-major) packing of a planar frame, following the
layout documented for `aic_processor_process_sequential`:
`[ch0_f0, ch0_f1, ..., ch1_f0, ch1_f1, ...]`. -/
def sequentialAudio (chans : List (List ℚ)) : List ℚ :=
  chans.flatten

/-- Unpacking of an interleaved buffer into planar channels: channel `c`
frame `i` lives at flat index `i * num_channels + c`. -/
def deinterleaveAudio (numChannels numFrames : Nat) (xs : List ℚ) :
    List (List ℚ) :=
  (List.range numChannels).map
    (fun c => (List.range numFrames).map (fun i => xs.getD (i * numChannels + c) 0))

/-- Unpacking of a sequential buffer into planar channels: channel `c`
frame `i` lives at flat index `c * num_frames + i`. -/
def desequentialAudio (numChannels numFrames : Nat) (xs : List ℚ) :
    List (List ℚ) :=
  (List.range numChannels).map
    (fun c => (List.range numFrames).map (fun i => xs.getD (c * numFrames + i) 0))

/-- Modelled from the spec: `aic_processor_process_interleaved` — the
same validation and processing as the planar entry point, presented on a
single interleaved buffer (no 16-channel limit is documented for this
layout). -/
def aic_processor_process_interleaved (e : List ℚ → List ℚ) (allowed : Bool)
    (P : Processor) (audio : List ℚ) (numChannels numFrames : Nat) :
    AicErrorCode × List ℚ × Processor :=
  if P.initialized = false then
    (.AIC_ERROR_CODE_MODEL_NOT_INITIALIZED, audio, P)
  else if numChannels ≠ P.numChannels ∨
      (if P.allowVariableFrames then P.numFrames < numFrames
       else numFrames ≠ P.numFrames) then
    (.AIC_ERROR_CODE_AUDIO_CONFIG_MISMATCH, audio, P)
  else if allowed = false then
    (.AIC_ERROR_CODE_ENHANCEMENT_NOT_ALLOWED, audio, P)
  else
    let r := processorStep e P (deinterleaveAudio numChannels numFrames audio)
    (.AIC_ERROR_CODE_SUCCESS, interleaveAudio r.1, r.2)

/-- Modelled from the spec: `aic_processor_process_sequential` — the
same validation and processing as the planar entry point, presented on a
single channel-major buffer. -/
def aic_processor_process_sequential (e : List ℚ → List ℚ) (allowed : Bool)
    (P : Processor) (audio : List ℚ) (numChannels numFrames : Nat) :
    AicErrorCode × List ℚ × Processor :=
  if P.initialized = false then
    (.AIC_ERROR_CODE_MODEL_NOT_INITIALIZED, audio, P)
  else if numChannels ≠ P.numChannels ∨
      (if P.allowVariableFrames then P.numFrames < numFrames
       else numFrames ≠ P.numFrames) then
    (.AIC_ERROR_CODE_AUDIO_CONFIG_MISMATCH, audio, P)
  else if allowed = false then
    (.AIC_ERROR_CODE_ENHANCEMENT_NOT_ALLOWED, audio, P)
  else
    let r := processorStep e P (desequentialAudio numChannels numFrames audio)
    (.AIC_ERROR_CODE_SUCCESS, sequentialAudio r.1, r.2)

/-- Repeated planar `process` calls over a list of frames, each call
passing the channel and frame counts of its own frame. -/
def runProcessor (e : List ℚ → List ℚ) (allowed : Bool) :
    Processor → List (List (List ℚ)) → List (List (List ℚ)) × Processor
  | P, [] => ([], P)
  | P, fr :: frs =>
      let r := aic_processor_process_planar e allowed P fr fr.length (fr.headD []).length
      let rest := runProcessor e allowed r.2.2 frs
      (r.2.1 :: rest.1, rest.2)

/-- Concatenated stream of channel `c` across a list of planar frames. -/
def channelStream (c : Nat) (frames : List (List (List ℚ))) : List ℚ :=
  (frames.map (fun fr => fr.getD c [])).flatten

/-- Validation range of each processor parameter, from the documentation
in `aic.h`: bypass 0.0–1.0, enhancement level 0.0–1.0, voice gain
0.1–4.0. -/
def processorParameterRange : AicProcessorParameter → ℚ × ℚ
  | .AIC_PROCESSOR_PARAMETER_BYPASS => (0, 1)
  | .AIC_PROCESSOR_PARAMETER_ENHANCEMENT_LEVEL => (0, 1)
  | .AIC_PROCESSOR_PARAMETER_VOICE_GAIN => (1/10, 4)

/-- Modelled from the spec: `aic_processor_context_set_parameter` —
validates the value against the documented range before any mutation;
out-of-range values leave the store unchanged and report
`AIC_ERROR_CODE_PARAMETER_OUT_OF_RANGE`. -/
def aic_processor_context_set_parameter (P : Processor)
    (p : AicProcessorParameter) (v : ℚ) : AicErrorCode × Processor :=
  let r := processorParameterRange p
  if r.1 ≤ v ∧ v ≤ r.2 then
    (.AIC_ERROR_CODE_SUCCESS,
     { P with params :=
        match p with
        | .AIC_PROCESSOR_PARAMETER_BYPASS => { P.params with bypass := v }
        | .AIC_PROCESSOR_PARAMETER_ENHANCEMENT_LEVEL =>
            { P.params with enhancementLevel := v }
        | .AIC_PROCESSOR_PARAMETER_VOICE_GAIN => { P.params with voiceGain := v } })
  else (.AIC_ERROR_CODE_PARAMETER_OUT_OF_RANGE, P)

/-- Modelled from the spec: `aic_processor_context_get_parameter` —
reads the current value of the field from the Parameter Store. -/
def aic_processor_context_get_parameter (P : Processor)
    (p : AicProcessorParameter) : AicErrorCode × ℚ :=
  (.AIC_ERROR_CODE_SUCCESS,
   match p with
   | .AIC_PROCESSOR_PARAMETER_BYPASS => P.params.bypass
   | .AIC_PROCESSOR_PARAMETER_ENHANCEMENT_LEVEL => P.params.enhancementLevel
   | .AIC_PROCESSOR_PARAMETER_VOICE_GAIN => P.params.voiceGain)

/-- Modelled from the spec: `aic_processor_context_get_output_delay` —
reports the total output delay in samples for the current
configuration. -/
def aic_processor_context_get_output_delay (P : Processor) : AicErrorCode × Nat :=
  (.AIC_ERROR_CODE_SUCCESS, P.delay)

/-- Modelled from the spec: `aic_processor_context_reset` — clears all
internal buffers and state (ring buffers return to their warm-up
pre-fill) while the processor stays initialized to the configured
settings and keeps its parameters. -/
def aic_processor_context_reset (P : Processor) : AicErrorCode × Processor :=
  (.AIC_ERROR_CODE_SUCCESS,
   { P with enhAdapter := adapterInit P.delay
            delayLines := List.replicate P.numChannels (adapterInit P.delay) })

/-- Rounding of a duration to the nearest whole multiple of the model
window duration, as documented for the VAD duration parameters. -/
def roundToWindow (v window : ℚ) : ℚ :=
  ((round (v / window) : ℤ) : ℚ) * window

/-- Number of whole model windows a duration covers, after rounding to
the nearest whole window count. -/
def windowCount (dur window : ℚ) : Nat :=
  (round (dur / window)).toNat

/-- Modelled from the spec: the Voice Activity Detector state behind an
`AicVadContext` handle: window duration of the backing model, the
parameter fields (durations stored already rounded to whole windows,
which is what `get_parameter` reports), the circular lookback of
per-window above-threshold decisions (most recent first), and the last
computed detection flag. -/
structure VadState where
  windowDuration : ℚ
  sensitivity : ℚ
  speechHoldDuration : ℚ
  minimumSpeechDuration : ℚ
  history : List Bool
  detected : Bool
deriving DecidableEq, Repr

/-- Modelled from the spec: `aic_vad_context_create` — a fresh VAD with
the documented defaults (sensitivity 6.0, hold 0.05 s, minimum speech
duration 0.0), empty lookback, no speech detected. -/
def aic_vad_context_create (windowDuration : ℚ) : VadState :=
  { windowDuration := windowDuration
    sensitivity := 6
    speechHoldDuration := roundToWindow (1/20) windowDuration
    minimumSpeechDuration := 0
    history := []
    detected := false }

/-- Energy threshold `10 ^ (-sensitivity)` documented in `aic.h`, for a
whole-number sensitivity (a fractional power is not rational; the
claims only exercise whole sensitivities). -/
def energyThreshold (sensitivity : Nat) : ℚ := 1 / 10 ^ sensitivity

/-- Per-window decision of whether an energy reading counts as speech:
the energy has to exceed the threshold. -/
def aboveThreshold (sensitivity : Nat) (energy : ℚ) : Bool :=
  decide (energyThreshold sensitivity < energy)

/-- Modelled from the spec: the VAD hysteresis decision given the
previous reported state and the lookback history (most recent first,
current window at the head).  While speech is detected it stays detected
as long as at least half of the last `holdW` windows were above
threshold; out of silence, speech is reported only once the last
`minW` windows (including the current one) were all above threshold,
immediately when `minW = 0`. -/
def vadDecide (holdW minW : Nat) (prevDetected : Bool) (hist : List Bool) : Bool :=
  if prevDetected then
    if holdW = 0 then hist.headD false
    else decide (holdW ≤ 2 * (hist.take holdW).countP (fun b => b))
  else
    hist.headD false && (hist.take minW).all (fun b => b)

/-- Modelled from the spec: the VAD update fired once per completed
window with that window's above-threshold decision: push the decision
into the bounded lookback and recompute the reported state. -/
def vadStep (st : VadState) (above : Bool) : VadState :=
  let holdW := windowCount st.speechHoldDuration st.windowDuration
  let minW := windowCount st.minimumSpeechDuration st.windowDuration
  let hist := (above :: st.history).take (max holdW (max minW 1))
  { st with history := hist, detected := vadDecide holdW minW st.detected hist }

/-- Modelled from the spec: `aic_vad_context_is_speech_detected` —
returns the last computed flag without recomputing. -/
def aic_vad_context_is_speech_detected (st : VadState) : AicErrorCode × Bool :=
  (.AIC_ERROR_CODE_SUCCESS, st.detected)

/-- Modelled from the spec: `aic_vad_context_set_parameter` — validates
against the ranges documented in `aic.h` (hold 0.0 to 20 times the
window length, sensitivity 1.0–15.0, minimum speech duration 0.0–1.0 s)
and stores durations rounded to the nearest whole multiple of the model
window duration. -/
def aic_vad_context_set_parameter (st : VadState) (p : AicVadParameter)
    (v : ℚ) : AicErrorCode × VadState :=
  match p with
  | .AIC_VAD_PARAMETER_SPEECH_HOLD_DURATION =>
      if 0 ≤ v ∧ v ≤ 20 * st.windowDuration then
        (.AIC_ERROR_CODE_SUCCESS,
         { st with speechHoldDuration := roundToWindow v st.windowDuration })
      else (.AIC_ERROR_CODE_PARAMETER_OUT_OF_RANGE, st)
  | .AIC_VAD_PARAMETER_SENSITIVITY =>
      if 1 ≤ v ∧ v ≤ 15 then (.AIC_ERROR_CODE_SUCCESS, { st with sensitivity := v })
      else (.AIC_ERROR_CODE_PARAMETER_OUT_OF_RANGE, st)
  | .AIC_VAD_PARAMETER_MINIMUM_SPEECH_DURATION =>
      if 0 ≤ v ∧ v ≤ 1 then
        (.AIC_ERROR_CODE_SUCCESS,
         { st with minimumSpeechDuration := roundToWindow v st.windowDuration })
      else (.AIC_ERROR_CODE_PARAMETER_OUT_OF_RANGE, st)

/-- Modelled from the spec: `aic_vad_context_get_parameter` — reads the
value actually in effect (durations as rounded, not the raw value last
set). -/
def aic_vad_context_get_parameter (st : VadState) (p : AicVadParameter) :
    AicErrorCode × ℚ :=
  (.AIC_ERROR_CODE_SUCCESS,
   match p with
   | .AIC_VAD_PARAMETER_SPEECH_HOLD_DURATION => st.speechHoldDuration
   | .AIC_VAD_PARAMETER_SENSITIVITY => st.sensitivity
   | .AIC_VAD_PARAMETER_MINIMUM_SPEECH_DURATION => st.minimumSpeechDuration)

/-- Modelled from the spec: the Handle/Lifetime Manager's view of the
process: the sets of live handles of each kind, identified by slot
numbers.  A NULL argument to a destroy call is modelled as `none`. -/
structure SdkWorld where
  models : List Nat
  processors : List Nat
  processorContexts : List Nat
  vadContexts : List Nat
deriving DecidableEq, Repr

/-- Modelled from the spec: `aic_model_destroy` — documented as safe to
call with NULL; a NULL handle is a total no-op, otherwise the model
handle is released. -/
def aic_model_destroy (w : SdkWorld) (handle : Option Nat) : SdkWorld :=
  match handle with
  | none => w
  | some h => { w with models := w.models.erase h }

/-- Modelled from the spec: `aic_processor_destroy` — documented as safe
to call with NULL; a NULL handle is a total no-op. -/
def aic_processor_destroy (w : SdkWorld) (handle : Option Nat) : SdkWorld :=
  match handle with
  | none => w
  | some h => { w with processors := w.processors.erase h }

/-- Modelled from the spec: `aic_processor_context_destroy` — documented
as safe to call with NULL; a NULL handle is a total no-op, and
destroying the context never destroys the associated processor. -/
def aic_processor_context_destroy (w : SdkWorld) (handle : Option Nat) : SdkWorld :=
  match handle with
  | none => w
  | some h => { w with processorContexts := w.processorContexts.erase h }

/-- Modelled from the spec: `aic_vad_context_destroy` — documented as
safe to call with NULL; a NULL handle is a total no-op, and destroying
the VAD context never destroys the backing processor. -/
def aic_vad_context_destroy (w : SdkWorld) (handle : Option Nat) : SdkWorld :=
  match handle with
  | none => w
  | some h => { w with vadContexts := w.vadContexts.erase h }

/-! ### Windowing algebra -/

theorem enhanceWindowsGo_eq_of_le (e : List ℚ → List ℚ) (W : Nat) :
    ∀ (fuel fuel' : Nat) (xs : List ℚ), xs.length ≤ fuel → xs.length ≤ fuel' →
      enhanceWindowsGo e W fuel xs = enhanceWindowsGo e W fuel' xs := by
  intro fuel
  induction fuel with
  | zero =>
      intro fuel' xs hx hx'
      cases fuel' with
      | zero => rfl
      | succ m =>
          show enhanceWindowsGo e W 0 xs
            = if 0 < W ∧ W ≤ xs.length then _ else []
          rw [if_neg (by omega)]
          rfl
  | succ n ih =>
      intro fuel' xs hx hx'
      cases fuel' with
      | zero =>
          show (if 0 < W ∧ W ≤ xs.length then _ else [])
            = enhanceWindowsGo e W 0 xs
          rw [if_neg (by omega)]
          rfl
      | succ m =>
          show (if 0 < W ∧ W ≤ xs.length
              then e (xs.take W) ++ enhanceWindowsGo e W n (xs.drop W) else [])
            = if 0 < W ∧ W ≤ xs.length
              then e (xs.take W) ++ enhanceWindowsGo e W m (xs.drop W) else []
          split
          · case isTrue h =>
              congr 1
              exact ih m (xs.drop W) (by rw [List.length_drop]; omega)
                (by rw [List.length_drop]; omega)
          · rfl

/-- The one-step unfolding of `enhanceWindows`: drain one complete
window if available, otherwise produce nothing. -/
theorem enhanceWindows_unfold (e : List ℚ → List ℚ) (W : Nat) (xs : List ℚ) :
    enhanceWindows e W xs
      = if 0 < W ∧ W ≤ xs.length then
          e (xs.take W) ++ enhanceWindows e W (xs.drop W)
        else [] := by
  unfold enhanceWindows
  rw [enhanceWindowsGo_eq_of_le e W xs.length (xs.length + 1) xs (by omega) (by omega)]
  show (if 0 < W ∧ W ≤ xs.length
      then e (xs.take W) ++ enhanceWindowsGo e W xs.length (xs.drop W) else []) = _
  split
  · case isTrue h =>
      congr 1
      exact enhanceWindowsGo_eq_of_le e W xs.length (xs.drop W).length (xs.drop W)
        (by rw [List.length_drop]; omega) le_rfl
  · rfl

/-- Recursion principle matching the window-draining structure of
`enhanceWindows`. -/
theorem enhanceWindows_induction (e : List ℚ → List ℚ) (W : Nat)
    (motive : List ℚ → Prop)
    (step : ∀ x : List ℚ, (0 < W ∧ W ≤ x.length) → motive (x.drop W) → motive x)
    (base : ∀ x : List ℚ, ¬(0 < W ∧ W ≤ x.length) → motive x) :
    ∀ xs, motive xs := by
  have key : ∀ (n : Nat) (xs : List ℚ), xs.length ≤ n → motive xs := by
    intro n
    induction n with
    | zero => exact fun xs h => base xs (by omega)
    | succ n ih =>
        intro xs h
        by_cases hc : 0 < W ∧ W ≤ xs.length
        · exact step xs hc (ih _ (by rw [List.length_drop]; omega))
        · exact base xs hc
  exact fun xs => key xs.length xs le_rfl

theorem enhanceWindows_nil (e : List ℚ → List ℚ) (W : Nat) :
    enhanceWindows e W [] = [] := by
  rw [enhanceWindows_unfold, if_neg]
  rintro ⟨h1, h2⟩
  simp at h2
  omega

theorem enhanceWindows_of_lt (e : List ℚ → List ℚ) (W : Nat) (xs : List ℚ)
    (h : xs.length < W) : enhanceWindows e W xs = [] := by
  rw [enhanceWindows_unfold, if_neg]
  rintro ⟨h1, h2⟩
  omega

theorem enhanceWindows_zero_window (e : List ℚ → List ℚ) (xs : List ℚ) :
    enhanceWindows e 0 xs = [] := by
  rw [enhanceWindows_unfold, if_neg]
  rintro ⟨h1, h2⟩
  omega

theorem length_enhanceWindows (e : List ℚ → List ℚ)
    (hlen : ∀ w, (e w).length = w.length) (W : Nat) (xs : List ℚ) :
    (enhanceWindows e W xs).length = W * (xs.length / W) := by
  induction xs using enhanceWindows_induction e W with
  | step x h ih =>
      rw [enhanceWindows_unfold, if_pos h, List.length_append, hlen,
        List.length_take, ih, List.length_drop]
      have h2 : x.length - W + W = x.length := Nat.sub_add_cancel h.2
      have h3 : (x.length - W + W) / W = (x.length - W) / W + 1 :=
        Nat.add_div_right _ h.1
      have hmin : W ⊓ x.length = W := by
        rw [min_eq_left h.2]
      calc W ⊓ x.length + W * ((x.length - W) / W)
          = W + W * ((x.length - W) / W) := by rw [hmin]
        _ = W * ((x.length - W) / W + 1) := by ring
        _ = W * (x.length / W) := by rw [← h3, h2]
  | base x h =>
      rw [enhanceWindows_unfold, if_neg h]
      push_neg at h
      by_cases hW : 0 < W
      · have hlt : x.length < W := h hW
        rw [Nat.div_eq_of_lt hlt, Nat.mul_zero]
        rfl
      · have hW0 : W = 0 := by omega
        subst hW0
        simp

theorem enhanceWindows_append (e : List ℚ → List ℚ) (W : Nat) (xs ys : List ℚ)
    (h : xs.length % W = 0) :
    enhanceWindows e W (xs ++ ys) = enhanceWindows e W xs ++ enhanceWindows e W ys := by
  induction xs using enhanceWindows_induction e W with
  | step x hx ih =>
      have hd : (x.drop W).length % W = 0 := by
        rw [List.length_drop]
        exact Nat.mod_eq_zero_of_dvd
          (Nat.dvd_sub' (Nat.dvd_of_mod_eq_zero h) dvd_rfl)
      have c1 : 0 < W ∧ W ≤ (x ++ ys).length := by
        constructor
        · exact hx.1
        · rw [List.length_append]; omega
      rw [enhanceWindows_unfold, if_pos c1, List.take_append_of_le_length hx.2,
        List.drop_append_of_le_length hx.2, ih hd]
      have hx' : enhanceWindows e W x
          = e (x.take W) ++ enhanceWindows e W (x.drop W) := by
        rw [enhanceWindows_unfold, if_pos hx]
      rw [hx', List.append_assoc]
  | base x hx =>
      by_cases hW : 0 < W
      · push_neg at hx
        have hlt : x.length < W := hx hW
        have h0 : x.length = 0 := by
          have := Nat.mod_eq_of_lt hlt
          omega
        have hnil : x = [] := List.eq_nil_of_length_eq_zero h0
        subst hnil
        simp [enhanceWindows_nil]
      · have hW0 : W = 0 := by omega
        subst hW0
        simp [enhanceWindows_zero_window]

theorem enhanceWindows_eq_take (e : List ℚ → List ℚ) (W : Nat) (xs : List ℚ) :
    enhanceWindows e W xs
      = enhanceWindows e W (xs.take (W * (xs.length / W))) := by
  by_cases hW : 0 < W
  · have hle : W * (xs.length / W) ≤ xs.length := Nat.mul_div_le _ _
    have htl : (xs.take (W * (xs.length / W))).length % W = 0 := by
      rw [List.length_take, min_eq_left hle]
      exact Nat.mul_mod_right _ _
    have hdl : (xs.drop (W * (xs.length / W))).length < W := by
      rw [List.length_drop]
      have := Nat.mod_add_div xs.length W
      have := Nat.mod_lt xs.length hW
      omega
    conv_lhs => rw [← List.take_append_drop (W * (xs.length / W)) xs]
    rw [enhanceWindows_append e W _ _ htl, enhanceWindows_of_lt e W _ hdl,
      List.append_nil]
  · have hW0 : W = 0 := by omega
    subst hW0
    simp [enhanceWindows_zero_window]

theorem enhanceWindows_append_step (e : List ℚ → List ℚ) (W : Nat) (xs ys : List ℚ)
    (hW : 0 < W) :
    enhanceWindows e W (xs ++ ys)
      = enhanceWindows e W xs
        ++ enhanceWindows e W (xs.drop (W * (xs.length / W)) ++ ys) := by
  have hle : W * (xs.length / W) ≤ xs.length := Nat.mul_div_le _ _
  have htl : (xs.take (W * (xs.length / W))).length % W = 0 := by
    rw [List.length_take, min_eq_left hle]
    exact Nat.mul_mod_right _ _
  conv_lhs => rw [← List.take_append_drop (W * (xs.length / W)) xs,
    List.append_assoc]
  rw [enhanceWindows_append e W _ _ htl, ← enhanceWindows_eq_take]

theorem enhanceWindows_one_id (xs : List ℚ) :
    enhanceWindows (fun w => w) 1 xs = xs := by
  induction xs using enhanceWindows_induction (fun w => w) 1 with
  | step x h ih =>
      rw [enhanceWindows_unfold, if_pos h]
      show x.take 1 ++ enhanceWindows (fun w => w) 1 (x.drop 1) = x
      rw [ih]
      exact List.take_append_drop 1 x
  | base x h =>
      push_neg at h
      have h0 : x.length = 0 := by
        have := h (by omega)
        omega
      have hnil : x = [] := List.eq_nil_of_length_eq_zero h0
      subst hnil
      exact enhanceWindows_nil _ _

/-! ### Pull semantics -/

theorem pullSamples_length (q : List ℚ) (n : Nat) :
    (pullSamples q n).1.length = n := by
  simp only [pullSamples, List.length_append, List.length_take,
    List.length_replicate]
  omega

theorem pullSamples_of_le (q : List ℚ) (n : Nat) (h : n ≤ q.length) :
    pullSamples q n = (q.take n, q.drop n) := by
  simp [pullSamples, Nat.sub_eq_zero_of_le h]

theorem drop_take_append_drop (U : List ℚ) (n m : Nat) (h : n ≤ m) :
    (U.take m).drop n ++ U.drop m = U.drop n := by
  rw [List.drop_take]
  have hm : U.drop m = (U.drop n).drop (m - n) := by
    rw [List.drop_drop]
    congr 1
    omega
  rw [hm]
  exact List.take_append_drop _ _

/-! ### One-step characterization of the Frame Adapter -/

theorem processFrame_run_step (e : List ℚ → List ℚ)
    (hlen : ∀ w, (e w).length = w.length) (W : Nat) (hW : 0 < W) (d : Nat)
    (xs f : List ℚ) (h0 : xs.length % W ≤ d)
    (h1 : (xs.length + f.length) % W ≤ d) :
    processFrame e W
      ⟨xs.drop (W * (xs.length / W)),
       (List.replicate d 0 ++ enhanceWindows e W xs).drop xs.length⟩ f =
      (((List.replicate d 0 ++ enhanceWindows e W (xs ++ f)).take
          (xs.length + f.length)).drop xs.length,
       ⟨(xs ++ f).drop (W * ((xs ++ f).length / W)),
        (List.replicate d 0 ++ enhanceWindows e W (xs ++ f)).drop
          (xs.length + f.length)⟩) := by
  have hqr : xs.length % W + W * (xs.length / W) = xs.length := Nat.mod_add_div _ _
  have hlenE : ∀ ys : List ℚ, (enhanceWindows e W ys).length = W * (ys.length / W) :=
    length_enhanceWindows e hlen W
  have hpend : (xs.drop (W * (xs.length / W))).length = xs.length % W := by
    rw [List.length_drop]
    omega
  have hbuflen : (xs.drop (W * (xs.length / W)) ++ f).length
      = xs.length % W + f.length := by
    rw [List.length_append, hpend]
  have hEstep : enhanceWindows e W (xs ++ f)
      = enhanceWindows e W xs
        ++ enhanceWindows e W (xs.drop (W * (xs.length / W)) ++ f) :=
    enhanceWindows_append_step e W xs f hW
  have hLlen : (List.replicate d 0 ++ enhanceWindows e W xs).length
      = d + W * (xs.length / W) := by
    rw [List.length_append, List.length_replicate, hlenE]
  have hxsL : xs.length ≤ (List.replicate d 0 ++ enhanceWindows e W xs).length := by
    rw [hLlen]
    omega
  have hMlen : (enhanceWindows e W (xs.drop (W * (xs.length / W)) ++ f)).length
      = W * ((xs.length % W + f.length) / W) := by
    rw [hlenE, hbuflen]
  have hmod : (xs.length + f.length) % W = (xs.length % W + f.length) % W := by
    conv_lhs => rw [← hqr]
    rw [Nat.add_comm (xs.length % W) (W * (xs.length / W)), Nat.add_assoc,
      Nat.mul_add_mod]
  have hmd : (xs.length % W + f.length) % W
      + W * ((xs.length % W + f.length) / W) = xs.length % W + f.length :=
    Nat.mod_add_div _ _
  have hdiv : (xs.length + f.length) / W
      = xs.length / W + (xs.length % W + f.length) / W := by
    have hx : xs.length + f.length
        = W * (xs.length / W) + (xs.length % W + f.length) := by omega
    rw [hx, Nat.mul_add_div hW]
  -- the queue before the pull, as a drop of the full warm-up-plus-enhanced stream
  have hq : (List.replicate d 0 ++ enhanceWindows e W xs).drop xs.length
        ++ enhanceWindows e W (xs.drop (W * (xs.length / W)) ++ f)
      = (List.replicate d 0 ++ enhanceWindows e W (xs ++ f)).drop xs.length := by
    rw [hEstep, ← List.append_assoc]
    exact (List.drop_append_of_le_length hxsL).symm
  have hLMlen : (List.replicate d 0 ++ enhanceWindows e W (xs ++ f)).length
      = d + W * (xs.length / W) + W * ((xs.length % W + f.length) / W) := by
    rw [hEstep, ← List.append_assoc, List.length_append, hMlen,
      List.length_append, List.length_replicate, hlenE]
  have hfq : f.length
      ≤ ((List.replicate d 0 ++ enhanceWindows e W (xs ++ f)).drop xs.length).length := by
    rw [List.length_drop, hLMlen]
    omega
  -- the pulled output and the remaining queue
  have hout : ((List.replicate d 0 ++ enhanceWindows e W (xs ++ f)).drop
        xs.length).take f.length
      = ((List.replicate d 0 ++ enhanceWindows e W (xs ++ f)).take
          (xs.length + f.length)).drop xs.length := List.take_drop _ _ _
  have hrem : ((List.replicate d 0 ++ enhanceWindows e W (xs ++ f)).drop
        xs.length).drop f.length
      = (List.replicate d 0 ++ enhanceWindows e W (xs ++ f)).drop
          (xs.length + f.length) := List.drop_drop _ _ _
  -- the new pending buffer
  have hfullLen : (xs.take (W * (xs.length / W))).length = W * (xs.length / W) := by
    rw [List.length_take]
    omega
  have key : W * ((xs ++ f).length / W)
      = (xs.take (W * (xs.length / W))).length
        + W * ((xs.drop (W * (xs.length / W)) ++ f).length / W) := by
    rw [hfullLen, hbuflen, List.length_append, hdiv, Nat.mul_add]
  have hpend' : (xs ++ f).drop (W * ((xs ++ f).length / W))
      = (xs.drop (W * (xs.length / W)) ++ f).drop
          (W * ((xs.drop (W * (xs.length / W)) ++ f).length / W)) :=
    calc (xs ++ f).drop (W * ((xs ++ f).length / W))
        = (xs.take (W * (xs.length / W))
            ++ (xs.drop (W * (xs.length / W)) ++ f)).drop
            ((xs.take (W * (xs.length / W))).length
              + W * ((xs.drop (W * (xs.length / W)) ++ f).length / W)) := by
          rw [← key]
          congr 1
          rw [← List.append_assoc, List.take_append_drop]
      _ = (xs.drop (W * (xs.length / W)) ++ f).drop
            (W * ((xs.drop (W * (xs.length / W)) ++ f).length / W)) :=
          List.drop_append _
  simp only [processFrame]
  rw [hq, pullSamples_of_le _ _ hfq, hout, hrem, hpend']

/-- Characterization of repeated fixed-size `process` calls on the Frame
Adapter: starting from the state reached after consuming `xs`, the
concatenated pulled output is the window through `[xs.length, total)` of
the warm-up zeros followed by the enhanced window stream, and the state
stays characterized the same way. -/
theorem runAdapter_characterization (e : List ℚ → List ℚ)
    (hlen : ∀ w, (e w).length = w.length) (W F : Nat) (hW : 0 < W) (d : Nat)
    (fs : List (List ℚ)) (hf : ∀ f ∈ fs, f.length = F) (xs : List ℚ)
    (H : ∀ k : Nat, (xs.length + k * F) % W ≤ d) :
    runAdapter e W
      ⟨xs.drop (W * (xs.length / W)),
       (List.replicate d 0 ++ enhanceWindows e W xs).drop xs.length⟩ fs =
      (((List.replicate d 0 ++ enhanceWindows e W (xs ++ fs.flatten)).take
          (xs ++ fs.flatten).length).drop xs.length,
       ⟨(xs ++ fs.flatten).drop (W * ((xs ++ fs.flatten).length / W)),
        (List.replicate d 0 ++ enhanceWindows e W (xs ++ fs.flatten)).drop
          (xs ++ fs.flatten).length⟩) := by
  induction fs generalizing xs with
  | nil =>
      simp only [runAdapter, List.flatten_nil, List.append_nil]
      have hnil : ((List.replicate d 0 ++ enhanceWindows e W xs).take
          xs.length).drop xs.length = [] :=
        List.drop_eq_nil_of_le (by rw [List.length_take]; omega)
      rw [hnil]
  | cons f rest ih =>
      have hF : f.length = F := hf f (by simp)
      have hrest : ∀ g ∈ rest, g.length = F := fun g hg => hf g (by simp [hg])
      have h0 : xs.length % W ≤ d := by
        have := H 0
        simpa using this
      have h1 : (xs.length + f.length) % W ≤ d := by
        have := H 1
        rw [hF]
        simpa using this
      have H' : ∀ k : Nat, ((xs ++ f).length + k * F) % W ≤ d := by
        intro k
        rw [List.length_append, hF]
        have hk := H (k + 1)
        have harith : xs.length + F + k * F = xs.length + (k + 1) * F := by ring
        rw [harith]
        exact hk
      have hxf : (xs ++ f).length = xs.length + f.length := List.length_append _ _
      simp only [runAdapter]
      rw [processFrame_run_step e hlen W hW d xs f h0 h1, ← hxf,
        ih hrest (xs ++ f) H']
      have hA : xs ++ (f :: rest).flatten = (xs ++ f) ++ rest.flatten := by
        rw [List.flatten_cons, List.append_assoc]
      rw [hA]
      congr 1
      -- the output streams: glue the step output to the tail output
      have hn' : (xs ++ f).length ≤ ((xs ++ f) ++ rest.flatten).length := by
        simp only [List.length_append]
        omega
      have hL1 : (xs ++ f).length
          ≤ (List.replicate d 0 ++ enhanceWindows e W (xs ++ f)).length := by
        have h0' := H' 0
        simp only [Nat.zero_mul, Nat.add_zero] at h0'
        simp only [List.length_append, List.length_replicate,
          length_enhanceWindows e hlen] at h0' ⊢
        have := Nat.mod_add_div (xs.length + f.length) W
        omega
      have hpre : List.take (xs ++ f).length
          (List.replicate d 0 ++ enhanceWindows e W ((xs ++ f) ++ rest.flatten))
          = List.take (xs ++ f).length
              (List.replicate d 0 ++ enhanceWindows e W (xs ++ f)) := by
        rw [enhanceWindows_append_step e W (xs ++ f) rest.flatten hW,
          ← List.append_assoc]
        exact List.take_append_of_le_length hL1
      rw [← hpre]
      have hTT : List.take (xs ++ f).length
          (List.replicate d 0 ++ enhanceWindows e W ((xs ++ f) ++ rest.flatten))
          = (List.take ((xs ++ f) ++ rest.flatten).length
              (List.replicate d 0
                ++ enhanceWindows e W ((xs ++ f) ++ rest.flatten))).take
              (xs ++ f).length := by
        rw [List.take_take, min_eq_left hn']
      rw [hTT]
      exact drop_take_append_drop _ xs.length (xs ++ f).length (by rw [hxf]; omega)

/-- The cumulative sample count of fixed-size frames stays within the
`adapterDelay` bound modulo the native window: `(k * F) % W ≤ W - gcd F W`. -/
theorem mod_mul_le_adapterDelay (F W : Nat) (hW : 0 < W) (k : Nat) :
    (k * F) % W ≤ adapterDelay F W := by
  have hg : Nat.gcd F W ∣ (k * F) % W := by
    rw [Nat.dvd_mod_iff (Nat.gcd_dvd_right F W)]
    exact Dvd.dvd.mul_left (Nat.gcd_dvd_left F W) k
  have hgW : Nat.gcd F W ∣ W := Nat.gcd_dvd_right F W
  have hlt : (k * F) % W < W := Nat.mod_lt _ hW
  have hsub : Nat.gcd F W ≤ W - (k * F) % W :=
    Nat.le_of_dvd (by omega) (Nat.dvd_sub' hgW hg)
  unfold adapterDelay
  omega

theorem length_flatten_of_forall (fs : List (List ℚ)) (F : Nat)
    (hf : ∀ f ∈ fs, f.length = F) : fs.flatten.length = fs.length * F := by
  induction fs with
  | nil => simp
  | cons f rest ih =>
      rw [List.flatten_cons, List.length_append, hf f (by simp),
        ih (fun g hg => hf g (by simp [hg])), List.length_cons]
      ring

/-- Characterization of the Frame Adapter run from its initial state
with the minimal warm-up pre-fill for fixed frame size `F`. -/
theorem runAdapter_from_init (e : List ℚ → List ℚ)
    (hlen : ∀ w, (e w).length = w.length) (W F : Nat) (hW : 0 < W)
    (fs : List (List ℚ)) (hf : ∀ f ∈ fs, f.length = F) :
    runAdapter e W (adapterInit (adapterDelay F W)) fs =
      ((List.replicate (adapterDelay F W) 0
          ++ enhanceWindows e W fs.flatten).take fs.flatten.length,
       ⟨fs.flatten.drop (W * (fs.flatten.length / W)),
        (List.replicate (adapterDelay F W) 0
          ++ enhanceWindows e W fs.flatten).drop fs.flatten.length⟩) := by
  have h := runAdapter_characterization e hlen W F hW (adapterDelay F W) fs hf []
    (fun k => by simpa using mod_mul_le_adapterDelay F W hW k)
  simpa [adapterInit, enhanceWindows_nil] using h

/-- Characterization of a latency-compensation delay line (the Frame
Adapter with window size one and identity transform, pre-filled with `d`
zeros): it delays the stream by exactly `d` samples. -/
theorem runDelayLine_from_init (d F : Nat) (fs : List (List ℚ))
    (hf : ∀ f ∈ fs, f.length = F) :
    runAdapter (fun w => w) 1 (adapterInit d) fs =
      ((List.replicate d 0 ++ fs.flatten).take fs.flatten.length,
       ⟨[], (List.replicate d 0 ++ fs.flatten).drop fs.flatten.length⟩) := by
  have h := runAdapter_characterization (fun w => w) (fun w => rfl) 1 F
    (by omega) d fs hf [] (fun k => by simp [Nat.mod_one])
  simpa only [adapterInit, List.drop_nil, enhanceWindows_nil, List.append_nil,
    List.length_nil, List.drop_zero, List.nil_append, enhanceWindows_one_id,
    Nat.div_one, one_mul, List.drop_length] using h

/-! ### Processor-level structure -/

theorem processFrame_out_length (e : List ℚ → List ℚ) (W : Nat)
    (st : AdapterState) (frame : List ℚ) :
    (processFrame e W st frame).1.length = frame.length := by
  simp only [processFrame]
  exact pullSamples_length _ _

theorem length_monoFrame (chans : List (List ℚ)) :
    (monoFrame chans).length = (chans.headD []).length := by
  simp [monoFrame]

theorem channelStream_nil (c : Nat) : channelStream c [] = [] := rfl

theorem channelStream_cons (c : Nat) (o : List (List ℚ))
    (os : List (List (List ℚ))) :
    channelStream c (o :: os) = o.getD c [] ++ channelStream c os := by
  simp [channelStream]

/-- Every branch of a planar process call leaves the processor either
untouched (on a validation failure) or stepped by `processorStep`. -/
theorem process_planar_state (e : List ℚ → List ℚ) (a : Bool) (P : Processor)
    (audio : List (List ℚ)) (nC nF : Nat) :
    (aic_processor_process_planar e a P audio nC nF).2.2 = P ∨
    (aic_processor_process_planar e a P audio nC nF).2.2
      = (processorStep e P audio).2 := by
  unfold aic_processor_process_planar
  repeat' split
  all_goals first | (left; rfl) | (right; rfl)

/-- Running the processor only rewrites the two ring-buffer components;
configuration, initialization flag, delay and parameters survive any
sequence of process calls (successful or failing). -/
theorem runProcessor_state_shape (e : List ℚ → List ℚ) (a : Bool)
    (P : Processor) (fs : List (List (List ℚ))) :
    ∃ A D, (runProcessor e a P fs).2
      = { P with enhAdapter := A, delayLines := D } := by
  induction fs generalizing P with
  | nil => exact ⟨P.enhAdapter, P.delayLines, rfl⟩
  | cons fr rest ih =>
      simp only [runProcessor]
      have hQ : ∃ A D,
          (aic_processor_process_planar e a P fr fr.length (fr.headD []).length).2.2
            = { P with enhAdapter := A, delayLines := D } := by
        rcases process_planar_state e a P fr fr.length (fr.headD []).length with h | h
        · exact ⟨P.enhAdapter, P.delayLines, by rw [h]⟩
        · exact ⟨(processorStep e P fr).2.enhAdapter,
            (processorStep e P fr).2.delayLines, by rw [h]; rfl⟩
      obtain ⟨A, D, hQeq⟩ := hQ
      obtain ⟨A', D', h2⟩ :=
        ih (aic_processor_process_planar e a P fr fr.length (fr.headD []).length).2.2
      refine ⟨A', D', ?_⟩
      rw [h2, hQeq]

/-- Decomposition of a run of successful planar process calls, seen from
one channel `c`: the channel's output stream is the pointwise dry/wet
blend of that channel's delay-line output with the enhanced mono
adapter output. -/
theorem runProcessor_channel_stream (e : List ℚ → List ℚ) (c : Nat)
    (fs : List (List (List ℚ))) :
    ∀ P : Processor,
      P.initialized = true →
      P.allowVariableFrames = false →
      P.numChannels ≤ 16 →
      c < P.numChannels →
      P.delayLines.length = P.numChannels →
      P.params.bypass < 1/2 →
      (∀ fr ∈ fs, fr.length = P.numChannels ∧ ∀ ch ∈ fr, ch.length = P.numFrames) →
      channelStream c (runProcessor e true P fs).1
        = List.zipWith (blendSample P.params.enhancementLevel P.params.voiceGain)
            ((runAdapter (fun w => w) 1 (P.delayLines.getD c (adapterInit 0))
                (fs.map (fun fr => fr.getD c []))).1)
            ((runAdapter e P.nativeWindow P.enhAdapter (fs.map monoFrame)).1) := by
  induction fs with
  | nil =>
      intro P _ _ _ _ _ _ _
      simp [runProcessor, runAdapter, channelStream]
  | cons fr rest ih =>
      intro P hinit hvar h16 hc hDL hbp hfs
      obtain ⟨hfrC, hfrF⟩ := hfs fr (by simp)
      have hrest : ∀ g ∈ rest, g.length = P.numChannels
          ∧ ∀ ch ∈ g, ch.length = P.numFrames :=
        fun g hg => hfs g (by simp [hg])
      have hCpos : 0 < P.numChannels := by omega
      have hfr0 : fr ≠ [] := by
        intro hx
        rw [hx] at hfrC
        simp at hfrC
        omega
      have hhead : (fr.headD []).length = P.numFrames := by
        cases fr with
        | nil => exact absurd rfl hfr0
        | cons ch chs => exact hfrF ch (by simp)
      have hcall : aic_processor_process_planar e true P fr fr.length
            (fr.headD []).length
          = (.AIC_ERROR_CODE_SUCCESS, (processorStep e P fr).1,
             (processorStep e P fr).2) := by
        unfold aic_processor_process_planar
        rw [if_neg (by simp [hinit])]
        rw [if_neg ?_, if_neg (by simp)]
        intro hcon
        rcases hcon with h | h | h
        · omega
        · exact h hfrC
        · rw [hvar, if_neg (by simp)] at h
          exact h hhead
      simp only [runProcessor]
      rw [hcall]
      dsimp only
      rw [channelStream_cons]
      -- bounds used throughout
      have hcdl : c < P.delayLines.length := by rw [hDL]; exact hc
      have hcfr : c < fr.length := by rw [hfrC]; exact hc
      have hfrcF : (fr.getD c []).length = P.numFrames := by
        rw [List.getD_eq_getElem fr [] hcfr]
        exact hfrF _ (List.getElem_mem hcfr)
      have hboundz : c < (List.zipWith
          (fun dl ch => processFrame (fun w => w) 1 dl ch) P.delayLines fr).length := by
        rw [List.length_zipWith, hDL, hfrC]
        simpa using hc
      -- the channel's slice of the step output
      have hhead_eq : (processorStep e P fr).1.getD c []
          = List.zipWith (blendSample P.params.enhancementLevel P.params.voiceGain)
              (processFrame (fun w => w) 1 (P.delayLines.getD c (adapterInit 0))
                (fr.getD c [])).1
              (processFrame e P.nativeWindow P.enhAdapter (monoFrame fr)).1 := by
        dsimp only [processorStep]
        have hbm : c < ((List.zipWith
            (fun dl ch => processFrame (fun w => w) 1 dl ch) P.delayLines fr).map
              (fun r =>
                if (1 : ℚ) / 2 ≤ P.params.bypass then r.1
                else blend_back r.1
                  (processFrame e P.nativeWindow P.enhAdapter (monoFrame fr)).1
                  P.params.enhancementLevel P.params.voiceGain)).length := by
          rw [List.length_map]
          exact hboundz
        rw [List.getD_eq_getElem _ [] hbm, List.getElem_map, List.getElem_zipWith,
          if_neg (not_le.mpr hbp), ← List.getD_eq_getElem P.delayLines (adapterInit 0) hcdl,
          ← List.getD_eq_getElem fr [] hcfr]
        rfl
      -- the channel's slice of the stepped state
      have hP'dl : (processorStep e P fr).2.delayLines.getD c (adapterInit 0)
          = (processFrame (fun w => w) 1 (P.delayLines.getD c (adapterInit 0))
              (fr.getD c [])).2 := by
        dsimp only [processorStep]
        have hbm : c < ((List.zipWith
            (fun dl ch => processFrame (fun w => w) 1 dl ch) P.delayLines fr).map
              (fun r => r.2)).length := by
          rw [List.length_map]
          exact hboundz
        rw [List.getD_eq_getElem _ _ hbm, List.getElem_map, List.getElem_zipWith,
          ← List.getD_eq_getElem P.delayLines (adapterInit 0) hcdl,
          ← List.getD_eq_getElem fr [] hcfr]
      -- apply the induction hypothesis to the stepped processor
      have hDL' : (processorStep e P fr).2.delayLines.length = P.numChannels := by
        dsimp only [processorStep]
        rw [List.length_map, List.length_zipWith, hDL, hfrC]
        simp
      have htail_eq := ih (processorStep e P fr).2 hinit hvar h16 hc hDL' hbp hrest
      rw [hP'dl] at htail_eq
      have henh' : (processorStep e P fr).2.enhAdapter
          = (processFrame e P.nativeWindow P.enhAdapter (monoFrame fr)).2 := rfl
      rw [henh'] at htail_eq
      rw [hhead_eq, htail_eq]
      -- fold the two runAdapter cons equations on the right-hand side
      conv_rhs => rw [List.map_cons, List.map_cons]
      simp only [runAdapter]
      rw [List.zipWith_append]
      · rfl
      · rw [processFrame_out_length, processFrame_out_length, hfrcF,
          length_monoFrame, hhead]


/-! ### Layout round trips -/

theorem flatten_getD_uniform (rows : List (List ℚ)) (L : Nat)
    (hrows : ∀ r ∈ rows, r.length = L) (r j : Nat) (hr : r < rows.length)
    (hj : j < L) :
    rows.flatten.getD (r * L + j) 0 = (rows.getD r []).getD j 0 := by
  induction rows generalizing r with
  | nil => simp at hr
  | cons row rest ih =>
      have hrow : row.length = L := hrows row (by simp)
      cases r with
      | zero =>
          simp only [List.flatten_cons, Nat.zero_mul, Nat.zero_add,
            List.getD_cons_zero]
          rw [List.getD_eq_getElem?_getD, List.getElem?_append_left (by omega),
            ← List.getD_eq_getElem?_getD]
      | succ r' =>
          have hidx : (r' + 1) * L + j = row.length + (r' * L + j) := by
            rw [hrow]
            ring
          simp only [List.flatten_cons, List.getD_cons_succ]
          rw [hidx, List.getD_eq_getElem?_getD, List.getElem?_append_right (by omega),
            Nat.add_sub_cancel_left, ← List.getD_eq_getElem?_getD]
          exact ih (fun g hg => hrows g (by simp [hg])) r' (by simpa using hr)

theorem interleaveAudio_getD (chans : List (List ℚ)) (F : Nat)
    (hhd : (chans.headD []).length = F) (i c : Nat) (hi : i < F)
    (hc : c < chans.length) :
    (interleaveAudio chans).getD (i * chans.length + c) 0
      = (chans.getD c []).getD i 0 := by
  unfold interleaveAudio
  have hrows : ∀ r ∈ (List.range (chans.headD []).length).map
      (fun i => chans.map (fun ch => ch.getD i 0)), r.length = chans.length := by
    intro r hrmem
    obtain ⟨k, _, hk⟩ := List.mem_map.mp hrmem
    rw [← hk, List.length_map]
  have hlenrows : ((List.range (chans.headD []).length).map
      (fun i => chans.map (fun ch => ch.getD i 0))).length = F := by
    rw [List.length_map, List.length_range, hhd]
  rw [flatten_getD_uniform _ chans.length hrows i c (by omega) hc]
  have hb : i < ((List.range (chans.headD []).length).map
      (fun i => chans.map (fun ch => ch.getD i 0))).length := by omega
  rw [List.getD_eq_getElem _ _ hb, List.getElem_map, List.getElem_range]
  rw [List.getD_eq_getElem _ _ (by simpa using hc), List.getElem_map,
    List.getD_eq_getElem _ _ hc]

theorem deinterleave_interleave (chans : List (List ℚ)) (C F : Nat)
    (hC : chans.length = C) (hF : ∀ ch ∈ chans, ch.length = F) (hCpos : 0 < C) :
    deinterleaveAudio C F (interleaveAudio chans) = chans := by
  have hhd : (chans.headD []).length = F := by
    cases chans with
    | nil =>
        simp at hC
        omega
    | cons ch chs => exact hF ch (by simp)
  unfold deinterleaveAudio
  apply List.ext_getElem
  · rw [List.length_map, List.length_range, hC]
  · intro c h1 h2
    rw [List.getElem_map, List.getElem_range]
    apply List.ext_getElem
    · rw [List.length_map, List.length_range]
      exact (hF _ (List.getElem_mem h2)).symm
    · intro i h3 h4
      rw [List.getElem_map, List.getElem_range]
      have hiF : i < F := by
        rw [List.length_map, List.length_range] at h3
        exact h3
      have hcC : c < chans.length := h2
      have hx := interleaveAudio_getD chans F hhd i c hiF hcC
      rw [hC] at hx
      rw [hx, List.getD_eq_getElem _ _ hcC, List.getD_eq_getElem _ _ h4]

theorem desequential_sequential (chans : List (List ℚ)) (C F : Nat)
    (hC : chans.length = C) (hF : ∀ ch ∈ chans, ch.length = F) :
    desequentialAudio C F (sequentialAudio chans) = chans := by
  unfold desequentialAudio sequentialAudio
  apply List.ext_getElem
  · rw [List.length_map, List.length_range, hC]
  · intro c h1 h2
    rw [List.getElem_map, List.getElem_range]
    apply List.ext_getElem
    · rw [List.length_map, List.length_range]
      exact (hF _ (List.getElem_mem h2)).symm
    · intro i h3 h4
      rw [List.getElem_map, List.getElem_range]
      have hiF : i < F := by
        rw [List.length_map, List.length_range] at h3
        exact h3
      have hx := flatten_getD_uniform chans F hF c i h2 hiF
      rw [hx, List.getD_eq_getElem _ _ h2, List.getD_eq_getElem _ _ h4]

/-! ### Blend specializations -/

theorem zipWith_left_of_le (l1 l2 : List ℚ) (h : l1.length ≤ l2.length) :
    List.zipWith (fun o (_ : ℚ) => o) l1 l2 = l1 := by
  induction l1 generalizing l2 with
  | nil => simp
  | cons x xs ih =>
      cases l2 with
      | nil => simp at h
      | cons y ys =>
          simp only [List.zipWith_cons_cons, List.cons.injEq, true_and]
          exact ih ys (by simpa using h)

theorem zipWith_right_map_of_le (g : ℚ) (l1 l2 : List ℚ)
    (h : l2.length ≤ l1.length) :
    List.zipWith (fun (_ : ℚ) m => m * g) l1 l2 = l2.map (fun m => m * g) := by
  induction l2 generalizing l1 with
  | nil => simp
  | cons y ys ih =>
      cases l1 with
      | nil => simp at h
      | cons x xs =>
          simp only [List.zipWith_cons_cons, List.map_cons, List.cons.injEq, true_and]
          exact ih xs (by simpa using h)

/-! ### Claim theorems -/

/-- C4: for every processor parameter, an in-range value is accepted
(`AIC_ERROR_CODE_SUCCESS`) and is what a subsequent get returns, with all
other fields untouched; an out-of-range value is rejected with
`AIC_ERROR_CODE_PARAMETER_OUT_OF_RANGE` and leaves the whole store
unchanged, so a get always returns the last successfully validated
value. -/
theorem claim_C4_parameter_store (P : Processor) (p : AicProcessorParameter)
    (v : ℚ) :
    (((processorParameterRange p).1 ≤ v ∧ v ≤ (processorParameterRange p).2) →
      (aic_processor_context_set_parameter P p v).1
          = .AIC_ERROR_CODE_SUCCESS ∧
      (aic_processor_context_get_parameter
          (aic_processor_context_set_parameter P p v).2 p).2 = v ∧
      ∀ q : AicProcessorParameter, q ≠ p →
        (aic_processor_context_get_parameter
            (aic_processor_context_set_parameter P p v).2 q).2
          = (aic_processor_context_get_parameter P q).2) ∧
    (¬((processorParameterRange p).1 ≤ v ∧ v ≤ (processorParameterRange p).2) →
      (aic_processor_context_set_parameter P p v).1
          = .AIC_ERROR_CODE_PARAMETER_OUT_OF_RANGE ∧
      (aic_processor_context_set_parameter P p v).2 = P) := by
  constructor
  · intro h
    refine ⟨?_, ?_, ?_⟩
    · simp only [aic_processor_context_set_parameter]
      rw [if_pos h]
    · simp only [aic_processor_context_set_parameter]
      rw [if_pos h]
      cases p <;> rfl
    · intro q hq
      simp only [aic_processor_context_set_parameter]
      rw [if_pos h]
      cases p <;> cases q <;> first | exact absurd rfl hq | rfl
  · intro h
    simp only [aic_processor_context_set_parameter]
    rw [if_neg h]
    exact ⟨rfl, rfl⟩

theorem claim_C4_witness :
    (aic_processor_context_set_parameter (aic_processor_create ⟨48000, 480⟩)
        .AIC_PROCESSOR_PARAMETER_VOICE_GAIN 2).1 = .AIC_ERROR_CODE_SUCCESS ∧
    (aic_processor_context_get_parameter
        (aic_processor_context_set_parameter (aic_processor_create ⟨48000, 480⟩)
          .AIC_PROCESSOR_PARAMETER_VOICE_GAIN 2).2
        .AIC_PROCESSOR_PARAMETER_VOICE_GAIN).2 = 2 ∧
    (aic_processor_context_set_parameter (aic_processor_create ⟨48000, 480⟩)
        .AIC_PROCESSOR_PARAMETER_VOICE_GAIN 5).1
      = .AIC_ERROR_CODE_PARAMETER_OUT_OF_RANGE := by
  have h1 := (claim_C4_parameter_store (aic_processor_create ⟨48000, 480⟩)
    .AIC_PROCESSOR_PARAMETER_VOICE_GAIN 2).1 (by norm_num [processorParameterRange])
  have h2 := (claim_C4_parameter_store (aic_processor_create ⟨48000, 480⟩)
    .AIC_PROCESSOR_PARAMETER_VOICE_GAIN 5).2 (by norm_num [processorParameterRange])
  exact ⟨h1.1, h1.2.1, h2.1⟩

/-- C5: whenever a planar process call fails with
`AIC_ERROR_CODE_AUDIO_CONFIG_MISMATCH` or
`AIC_ERROR_CODE_ENHANCEMENT_NOT_ALLOWED`, the audio buffer and the whole
processor state (all internal buffers included) are exactly what they
were before the call, and any subsequent call behaves as if the failed
call had never happened. -/
theorem claim_C5_failed_call_keeps_state (e : List ℚ → List ℚ) (allowed : Bool)
    (P : Processor) (audio : List (List ℚ)) (nC nF : Nat)
    (h : (aic_processor_process_planar e allowed P audio nC nF).1
          = .AIC_ERROR_CODE_AUDIO_CONFIG_MISMATCH ∨
         (aic_processor_process_planar e allowed P audio nC nF).1
          = .AIC_ERROR_CODE_ENHANCEMENT_NOT_ALLOWED) :
    (aic_processor_process_planar e allowed P audio nC nF).2.1 = audio ∧
    (aic_processor_process_planar e allowed P audio nC nF).2.2 = P ∧
    ∀ (allowed' : Bool) (audio' : List (List ℚ)) (nC' nF' : Nat),
      aic_processor_process_planar e allowed'
          (aic_processor_process_planar e allowed P audio nC nF).2.2
          audio' nC' nF'
        = aic_processor_process_planar e allowed' P audio' nC' nF' := by
  have hP : (aic_processor_process_planar e allowed P audio nC nF).2.1 = audio
      ∧ (aic_processor_process_planar e allowed P audio nC nF).2.2 = P := by
    by_cases c1 : P.initialized = false
    · exfalso
      unfold aic_processor_process_planar at h
      rw [if_pos c1] at h
      rcases h with h | h <;> simp at h
    · by_cases c2 : 16 < nC ∨ nC ≠ P.numChannels ∨
          (if P.allowVariableFrames = true then P.numFrames < nF
           else nF ≠ P.numFrames)
      · unfold aic_processor_process_planar
        rw [if_neg c1, if_pos c2]
        exact ⟨rfl, rfl⟩
      · by_cases c3 : allowed = false
        · unfold aic_processor_process_planar
          rw [if_neg c1, if_neg c2, if_pos c3]
          exact ⟨rfl, rfl⟩
        · exfalso
          unfold aic_processor_process_planar at h
          rw [if_neg c1, if_neg c2, if_neg c3] at h
          rcases h with h | h <;> simp at h
  refine ⟨hP.1, hP.2, ?_⟩
  intro allowed' audio' nC' nF'
  rw [hP.2]

/-- Concrete initialized stereo processor used by several witnesses:
frame size 2, native window 2, no extra delay, default parameters. -/
def witnessProcessor : Processor :=
  { initialized := true
    sampleRate := 48000
    numChannels := 2
    numFrames := 2
    allowVariableFrames := false
    nativeWindow := 2
    delay := 0
    params := ⟨0, 1, 1⟩
    enhAdapter := adapterInit 0
    delayLines := List.replicate 2 (adapterInit 0) }

theorem claim_C5_witness :
    ((aic_processor_process_planar (fun w => w) true witnessProcessor
        [[1, 2]] 1 2).1 = .AIC_ERROR_CODE_AUDIO_CONFIG_MISMATCH ∨
     (aic_processor_process_planar (fun w => w) true witnessProcessor
        [[1, 2]] 1 2).1 = .AIC_ERROR_CODE_ENHANCEMENT_NOT_ALLOWED) ∧
    (aic_processor_process_planar (fun w => w) true witnessProcessor
        [[1, 2]] 1 2).2.2 = witnessProcessor := by
  have h := claim_C5_failed_call_keeps_state (fun w => w) true witnessProcessor
    [[1, 2]] 1 2 (Or.inl (by decide))
  exact ⟨Or.inl (by decide), h.2.1⟩

/-- C9: the output delay reported through the context is the same
before, between and after arbitrary runs of process calls — it never
drifts while the configuration is unchanged. -/
theorem claim_C9_delay_stable (e : List ℚ → List ℚ) (a : Bool) (P : Processor)
    (fs fs' : List (List (List ℚ))) :
    (aic_processor_context_get_output_delay (runProcessor e a P fs).2).2
      = (aic_processor_context_get_output_delay P).2 ∧
    (aic_processor_context_get_output_delay
        (runProcessor e a (runProcessor e a P fs).2 fs').2).2
      = (aic_processor_context_get_output_delay P).2 := by
  obtain ⟨A, D, h1⟩ := runProcessor_state_shape e a P fs
  obtain ⟨A', D', h2⟩ := runProcessor_state_shape e a (runProcessor e a P fs).2 fs'
  constructor
  · rw [h1]
    rfl
  · rw [h2, h1]
    rfl

/-- C10: every destroy operation is a total no-op on a NULL handle:
the world of live handles is left exactly as it was. -/
theorem claim_C10_destroy_null_noop (w : SdkWorld) :
    aic_model_destroy w none = w ∧
    aic_processor_destroy w none = w ∧
    aic_processor_context_destroy w none = w ∧
    aic_vad_context_destroy w none = w :=
  ⟨rfl, rfl, rfl, rfl⟩

/-- C8: resetting through the context after any run of process calls
restores exactly the freshly-initialized processor, so replaying any
input afterwards produces the same outputs as a fresh processor with the
same configuration; the configured settings and parameters survive the
reset. -/
theorem claim_C8_reset_idempotence (e : List ℚ → List ℚ) (a : Bool)
    (P : Processor) (henh : P.enhAdapter = adapterInit P.delay)
    (hdl : P.delayLines = List.replicate P.numChannels (adapterInit P.delay))
    (fs1 fs2 : List (List (List ℚ))) :
    runProcessor e a (aic_processor_context_reset (runProcessor e a P fs1).2).2 fs2
      = runProcessor e a P fs2 ∧
    (aic_processor_context_reset (runProcessor e a P fs1).2).2.params = P.params ∧
    (aic_processor_context_reset (runProcessor e a P fs1).2).2.delay = P.delay ∧
    (aic_processor_context_reset (runProcessor e a P fs1).2).2.numChannels
      = P.numChannels ∧
    (aic_processor_context_reset (runProcessor e a P fs1).2).2.initialized
      = P.initialized := by
  obtain ⟨A, D, h1⟩ := runProcessor_state_shape e a P fs1
  have hreset : (aic_processor_context_reset (runProcessor e a P fs1).2).2 = P := by
    rw [h1]
    unfold aic_processor_context_reset
    dsimp only
    rw [← hdl, ← henh]
  rw [hreset]
  exact ⟨rfl, rfl, rfl, rfl, rfl⟩

theorem claim_C8_witness :
    runProcessor (fun w => w) true
        (aic_processor_context_reset
          (runProcessor (fun w => w) true witnessProcessor [[[1, 2], [3, 4]]]).2).2
        [[[5, 6], [7, 8]]]
      = runProcessor (fun w => w) true witnessProcessor [[[5, 6], [7, 8]]] :=
  (claim_C8_reset_idempotence (fun w => w) true witnessProcessor rfl rfl
    [[[1, 2], [3, 4]]] [[[5, 6], [7, 8]]]).1

/-- C7 (amended): setting a VAD duration parameter succeeds exactly when
the value lies in the range documented in `aic.h` (0 to 20 window
lengths for the hold duration, 0 to 1 second for the minimum speech
duration — not for every non-negative value), in which case a subsequent
get returns the value rounded to the nearest whole multiple of the model
window duration (the value actually in effect); an out-of-range value is
rejected and leaves the state unchanged. -/
theorem claim_C7_duration_rounding (st : VadState) (v : ℚ) :
    ((0 ≤ v ∧ v ≤ 20 * st.windowDuration) →
      (aic_vad_context_set_parameter st
          .AIC_VAD_PARAMETER_SPEECH_HOLD_DURATION v).1
        = .AIC_ERROR_CODE_SUCCESS ∧
      (aic_vad_context_get_parameter
          (aic_vad_context_set_parameter st
            .AIC_VAD_PARAMETER_SPEECH_HOLD_DURATION v).2
          .AIC_VAD_PARAMETER_SPEECH_HOLD_DURATION).2
        = roundToWindow v st.windowDuration) ∧
    (¬(0 ≤ v ∧ v ≤ 20 * st.windowDuration) →
      (aic_vad_context_set_parameter st
          .AIC_VAD_PARAMETER_SPEECH_HOLD_DURATION v).1
        = .AIC_ERROR_CODE_PARAMETER_OUT_OF_RANGE ∧
      (aic_vad_context_set_parameter st
          .AIC_VAD_PARAMETER_SPEECH_HOLD_DURATION v).2 = st) ∧
    ((0 ≤ v ∧ v ≤ 1) →
      (aic_vad_context_set_parameter st
          .AIC_VAD_PARAMETER_MINIMUM_SPEECH_DURATION v).1
        = .AIC_ERROR_CODE_SUCCESS ∧
      (aic_vad_context_get_parameter
          (aic_vad_context_set_parameter st
            .AIC_VAD_PARAMETER_MINIMUM_SPEECH_DURATION v).2
          .AIC_VAD_PARAMETER_MINIMUM_SPEECH_DURATION).2
        = roundToWindow v st.windowDuration) ∧
    (¬(0 ≤ v ∧ v ≤ 1) →
      (aic_vad_context_set_parameter st
          .AIC_VAD_PARAMETER_MINIMUM_SPEECH_DURATION v).1
        = .AIC_ERROR_CODE_PARAMETER_OUT_OF_RANGE ∧
      (aic_vad_context_set_parameter st
          .AIC_VAD_PARAMETER_MINIMUM_SPEECH_DURATION v).2 = st) ∧
    ∃ k : ℤ, roundToWindow v st.windowDuration = (k : ℚ) * st.windowDuration := by
  refine ⟨?_, ?_, ?_, ?_, ⟨round (v / st.windowDuration), rfl⟩⟩
  · intro h
    simp only [aic_vad_context_set_parameter]
    rw [if_pos h]
    exact ⟨rfl, rfl⟩
  · intro h
    simp only [aic_vad_context_set_parameter]
    rw [if_neg h]
    exact ⟨rfl, rfl⟩
  · intro h
    simp only [aic_vad_context_set_parameter]
    rw [if_pos h]
    exact ⟨rfl, rfl⟩
  · intro h
    simp only [aic_vad_context_set_parameter]
    rw [if_neg h]
    exact ⟨rfl, rfl⟩

/-- C7, counterexample to the claim as stated: with a 10 ms model
window, setting the speech hold duration to the non-negative value 1 s
exceeds the documented upper bound of 20 window lengths (0.2 s) and is
rejected, not accepted. -/
theorem claim_C7_counterexample :
    (aic_vad_context_set_parameter (aic_vad_context_create (1/100))
        .AIC_VAD_PARAMETER_SPEECH_HOLD_DURATION 1).1
      = .AIC_ERROR_CODE_PARAMETER_OUT_OF_RANGE ∧ (0 : ℚ) ≤ 1 := by
  constructor
  · simp only [aic_vad_context_set_parameter]
    rw [if_neg (by norm_num [aic_vad_context_create])]
  · norm_num

theorem claim_C7_witness :
    (aic_vad_context_set_parameter (aic_vad_context_create (1/100))
        .AIC_VAD_PARAMETER_SPEECH_HOLD_DURATION (3/100)).1
      = .AIC_ERROR_CODE_SUCCESS ∧
    (aic_vad_context_get_parameter
        (aic_vad_context_set_parameter (aic_vad_context_create (1/100))
          .AIC_VAD_PARAMETER_SPEECH_HOLD_DURATION (3/100)).2
        .AIC_VAD_PARAMETER_SPEECH_HOLD_DURATION).2
      = roundToWindow (3/100) (aic_vad_context_create (1/100)).windowDuration := by
  have h := (claim_C7_duration_rounding (aic_vad_context_create (1/100))
    (3/100)).1 (by norm_num [aic_vad_context_create])
  exact ⟨h.1, h.2⟩

theorem headD_take_cons {α : Type} (a : α) (l : List α) (n : Nat) (hn : 0 < n)
    (d : α) : ((a :: l).take n).headD d = a := by
  cases n with
  | zero => omega
  | succ m => rfl

/-- C6: the VAD hysteresis — while speech is detected it stays detected
exactly when at least half of the last `hold` windows (current one
included) were above the energy threshold `10 ^ (-sensitivity)`; out of
silence, speech is reported exactly when the last `minimum` windows were
continuously above threshold, and immediately from the current window
when the minimum speech duration rounds to zero windows. -/
theorem claim_C6_vad_hysteresis (st : VadState) (s : Nat) (energy : ℚ) :
    (st.detected = true →
      0 < windowCount st.speechHoldDuration st.windowDuration →
      ((vadStep st (aboveThreshold s energy)).detected = true ↔
        windowCount st.speechHoldDuration st.windowDuration
          ≤ 2 * ((aboveThreshold s energy :: st.history).take
              (windowCount st.speechHoldDuration st.windowDuration)).countP
              (fun b => b))) ∧
    (st.detected = false →
      ((vadStep st (aboveThreshold s energy)).detected = true ↔
        (aboveThreshold s energy = true ∧
         ((aboveThreshold s energy :: st.history).take
            (windowCount st.minimumSpeechDuration st.windowDuration)).all
            (fun b => b) = true))) ∧
    (st.detected = false →
      windowCount st.minimumSpeechDuration st.windowDuration = 0 →
      (vadStep st (aboveThreshold s energy)).detected
        = aboveThreshold s energy) := by
  refine ⟨?_, ?_, ?_⟩
  · intro hdet hpos
    simp only [vadStep, vadDecide]
    rw [hdet, if_pos rfl, if_neg (by omega), List.take_take,
      min_eq_left (by omega), decide_eq_true_iff]
  · intro hdet
    simp only [vadStep, vadDecide]
    rw [hdet, if_neg (by simp), headD_take_cons _ _ _ (by omega),
      List.take_take, min_eq_left (by omega), Bool.and_eq_true]
  · intro hdet h0
    simp only [vadStep, vadDecide]
    rw [hdet, if_neg (by simp), headD_take_cons _ _ _ (by omega), h0]
    simp

theorem claim_C6_witness :
    (vadStep ⟨1, 6, 5, 0, [true, true, false], true⟩
      (aboveThreshold 6 (1/2))).detected = true := by
  have hw : windowCount (5 : ℚ) 1 = 5 := by
    norm_num [windowCount, round_eq]
    decide
  have ha : aboveThreshold 6 (1/2) = true := by
    simp only [aboveThreshold, energyThreshold, decide_eq_true_iff]
    norm_num
  have h := (claim_C6_vad_hysteresis ⟨1, 6, 5, 0, [true, true, false], true⟩
    6 (1/2)).1 rfl (by rw [hw]; omega)
  apply h.mpr
  rw [hw, ha]
  decide

/-- C3: an initialized processor fed the identical logical multichannel
audio through the planar, interleaved and sequential entry points
produces the identical output samples (each packed in its own layout)
and the identical final processor state — the mono downmix and all
further processing do not depend on the memory layout. -/
theorem claim_C3_layout_equivalence (e : List ℚ → List ℚ) (P : Processor)
    (chans : List (List ℚ)) (hinit : P.initialized = true)
    (h16 : P.numChannels ≤ 16) (hCpos : 0 < P.numChannels)
    (hC : chans.length = P.numChannels)
    (hF : ∀ ch ∈ chans, ch.length = P.numFrames) :
    aic_processor_process_planar e true P chans P.numChannels P.numFrames
      = (.AIC_ERROR_CODE_SUCCESS, (processorStep e P chans).1,
         (processorStep e P chans).2) ∧
    aic_processor_process_interleaved e true P (interleaveAudio chans)
        P.numChannels P.numFrames
      = (.AIC_ERROR_CODE_SUCCESS, interleaveAudio (processorStep e P chans).1,
         (processorStep e P chans).2) ∧
    aic_processor_process_sequential e true P (sequentialAudio chans)
        P.numChannels P.numFrames
      = (.AIC_ERROR_CODE_SUCCESS, sequentialAudio (processorStep e P chans).1,
         (processorStep e P chans).2) := by
  have hcond3 : ¬(P.numChannels ≠ P.numChannels ∨
      (if P.allowVariableFrames = true then P.numFrames < P.numFrames
       else P.numFrames ≠ P.numFrames)) := by
    rintro (h | h)
    · exact h rfl
    · revert h
      split <;> omega
  have hcond2 : ¬(16 < P.numChannels ∨ P.numChannels ≠ P.numChannels ∨
      (if P.allowVariableFrames = true then P.numFrames < P.numFrames
       else P.numFrames ≠ P.numFrames)) := by
    rintro (h | h)
    · omega
    · exact hcond3 h
  refine ⟨?_, ?_, ?_⟩
  · unfold aic_processor_process_planar
    rw [if_neg (by simp [hinit]), if_neg hcond2, if_neg (by simp)]
  · unfold aic_processor_process_interleaved
    rw [if_neg (by simp [hinit]), if_neg hcond3, if_neg (by simp),
      deinterleave_interleave chans P.numChannels P.numFrames hC hF hCpos]
  · unfold aic_processor_process_sequential
    rw [if_neg (by simp [hinit]), if_neg hcond3, if_neg (by simp),
      desequential_sequential chans P.numChannels P.numFrames hC hF]

theorem claim_C3_witness :
    aic_processor_process_interleaved (fun w => w) true witnessProcessor
        (interleaveAudio [[1, 2], [3, 4]]) 2 2
      = (.AIC_ERROR_CODE_SUCCESS,
         interleaveAudio (processorStep (fun w => w) witnessProcessor
           [[1, 2], [3, 4]]).1,
         (processorStep (fun w => w) witnessProcessor [[1, 2], [3, 4]]).2) ∧
    aic_processor_process_sequential (fun w => w) true witnessProcessor
        (sequentialAudio [[1, 2], [3, 4]]) 2 2
      = (.AIC_ERROR_CODE_SUCCESS,
         sequentialAudio (processorStep (fun w => w) witnessProcessor
           [[1, 2], [3, 4]]).1,
         (processorStep (fun w => w) witnessProcessor [[1, 2], [3, 4]]).2) := by
  have h := claim_C3_layout_equivalence (fun w => w) witnessProcessor
    [[1, 2], [3, 4]] rfl (by norm_num [witnessProcessor])
    (by norm_num [witnessProcessor]) rfl (by decide)
  exact ⟨h.2.1, h.2.2⟩

/-- C1: on a freshly initialized processor (blend path, bypass off),
every channel's output stream is the pointwise blend
`original * (1 - enhancement_level) + mono_enhanced * voice_gain * enhancement_level`
of that channel's own input delayed by the reported output delay against
the enhanced mono stream; with enhancement level 0 the output is the
original input delayed by exactly the reported delay (bit-exact in this
rational model), and with enhancement level 1 it is the enhanced mono
stream times the voice gain. -/
theorem claim_C1_blend_semantics (e : List ℚ → List ℚ)
    (hlen : ∀ w, (e w).length = w.length) (P : Processor)
    (hinit : P.initialized = true) (hvar : P.allowVariableFrames = false)
    (h16 : P.numChannels ≤ 16) (hW : 0 < P.nativeWindow)
    (hdelay : P.delay = adapterDelay P.numFrames P.nativeWindow)
    (henh : P.enhAdapter = adapterInit P.delay)
    (hdl : P.delayLines = List.replicate P.numChannels (adapterInit P.delay))
    (hbp : P.params.bypass < 1/2)
    (fs : List (List (List ℚ)))
    (hfs : ∀ fr ∈ fs, fr.length = P.numChannels
      ∧ ∀ ch ∈ fr, ch.length = P.numFrames)
    (c : Nat) (hc : c < P.numChannels) :
    channelStream c (runProcessor e true P fs).1
      = List.zipWith (blendSample P.params.enhancementLevel P.params.voiceGain)
          ((List.replicate P.delay 0
              ++ (fs.map (fun fr : List (List ℚ) => fr.getD c [])).flatten).take
            (fs.map (fun fr : List (List ℚ) => fr.getD c [])).flatten.length)
          ((List.replicate P.delay 0
              ++ enhanceWindows e P.nativeWindow (fs.map monoFrame).flatten).take
            (fs.map monoFrame).flatten.length) ∧
    (P.params.enhancementLevel = 0 →
      channelStream c (runProcessor e true P fs).1
        = (List.replicate P.delay 0
            ++ (fs.map (fun fr : List (List ℚ) => fr.getD c [])).flatten).take
            (fs.map (fun fr : List (List ℚ) => fr.getD c [])).flatten.length) ∧
    (P.params.enhancementLevel = 1 →
      channelStream c (runProcessor e true P fs).1
        = ((List.replicate P.delay 0
              ++ enhanceWindows e P.nativeWindow (fs.map monoFrame).flatten).take
            (fs.map monoFrame).flatten.length).map
            (fun m => m * P.params.voiceGain)) := by
  rw [hdelay]
  have hDL : P.delayLines.length = P.numChannels := by
    rw [hdl, List.length_replicate]
  have hfchan : ∀ g ∈ fs.map (fun fr : List (List ℚ) => fr.getD c []), g.length = P.numFrames := by
    intro g hg
    obtain ⟨fr, hfr, rfl⟩ := List.mem_map.mp hg
    obtain ⟨hfrC, hfrF⟩ := hfs fr hfr
    have hcfr : c < fr.length := by omega
    rw [List.getD_eq_getElem _ _ hcfr]
    exact hfrF _ (List.getElem_mem hcfr)
  have hfmono : ∀ g ∈ fs.map monoFrame, g.length = P.numFrames := by
    intro g hg
    obtain ⟨fr, hfr, rfl⟩ := List.mem_map.mp hg
    obtain ⟨hfrC, hfrF⟩ := hfs fr hfr
    rw [length_monoFrame]
    cases fr with
    | nil =>
        simp at hfrC
        omega
    | cons ch chs => exact hfrF ch (by simp)
  have hdlc : P.delayLines.getD c (adapterInit 0) = adapterInit P.delay := by
    rw [hdl, List.getD_eq_getElem _ _ (by rw [List.length_replicate]; exact hc),
      List.getElem_replicate]
  have hmain := runProcessor_channel_stream e c fs P hinit hvar h16 hc hDL hbp hfs
  rw [hdlc, henh, hdelay] at hmain
  rw [runDelayLine_from_init (adapterDelay P.numFrames P.nativeWindow)
    P.numFrames _ hfchan] at hmain
  rw [runAdapter_from_init e hlen P.nativeWindow P.numFrames hW _ hfmono] at hmain
  dsimp only at hmain
  have hTc : (fs.map (fun fr : List (List ℚ) => fr.getD c [])).flatten.length
      = fs.length * P.numFrames := by
    rw [length_flatten_of_forall _ _ hfchan, List.length_map]
  have hTm : (fs.map monoFrame).flatten.length = fs.length * P.numFrames := by
    rw [length_flatten_of_forall _ _ hfmono, List.length_map]
  have hmod : (fs.length * P.numFrames) % P.nativeWindow
      ≤ adapterDelay P.numFrames P.nativeWindow :=
    mod_mul_le_adapterDelay _ _ hW _
  have hmd := Nat.mod_add_div (fs.length * P.numFrames) P.nativeWindow
  have hlen1 : ((List.replicate (adapterDelay P.numFrames P.nativeWindow) 0
      ++ (fs.map (fun fr : List (List ℚ) => fr.getD c [])).flatten).take
      (fs.map (fun fr : List (List ℚ) => fr.getD c [])).flatten.length).length
      = fs.length * P.numFrames := by
    rw [List.length_take, List.length_append, List.length_replicate, hTc]
    omega
  have hlen2 : ((List.replicate (adapterDelay P.numFrames P.nativeWindow) 0
      ++ enhanceWindows e P.nativeWindow (fs.map monoFrame).flatten).take
      (fs.map monoFrame).flatten.length).length
      = fs.length * P.numFrames := by
    rw [List.length_take, List.length_append, List.length_replicate,
      length_enhanceWindows e hlen, hTm]
    omega
  refine ⟨hmain, ?_, ?_⟩
  · intro h0
    rw [hmain, h0]
    have hfun : blendSample 0 P.params.voiceGain = fun o (_ : ℚ) => o := by
      funext o m
      simp only [blendSample]
      ring
    rw [hfun]
    exact zipWith_left_of_le _ _ (le_of_eq (hlen1.trans hlen2.symm))
  · intro h1
    rw [hmain, h1]
    have hfun : blendSample 1 P.params.voiceGain
        = fun (_ : ℚ) m => m * P.params.voiceGain := by
      funext o m
      simp only [blendSample]
      ring
    rw [hfun]
    exact zipWith_right_map_of_le _ _ _ (le_of_eq (hlen2.trans hlen1.symm))

theorem claim_C1_witness :
    channelStream 0 (runProcessor (fun w => w) true witnessProcessor
        [[[1, 2], [3, 4]]]).1
      = List.zipWith (blendSample witnessProcessor.params.enhancementLevel
            witnessProcessor.params.voiceGain)
          ((List.replicate witnessProcessor.delay 0
              ++ ([[[1, 2], [3, 4]]].map (fun fr : List (List ℚ) => fr.getD 0 [])).flatten).take
            ([[[1, 2], [3, 4]]].map (fun fr : List (List ℚ) => fr.getD 0 [])).flatten.length)
          ((List.replicate witnessProcessor.delay 0
              ++ enhanceWindows (fun w => w) witnessProcessor.nativeWindow
                ([[[1, 2], [3, 4]]].map monoFrame).flatten).take
            ([[[1, 2], [3, 4]]].map monoFrame).flatten.length) :=
  (claim_C1_blend_semantics (fun w => w) (fun w => rfl) witnessProcessor
    rfl rfl (by norm_num [witnessProcessor]) (by norm_num [witnessProcessor])
    (by decide) rfl rfl (by norm_num [witnessProcessor])
    [[[1, 2], [3, 4]]] (by decide) 0 (by norm_num [witnessProcessor])).1

theorem drop_replicate_append (n : Nat) (x : ℚ) (l : List ℚ) :
    (List.replicate n x ++ l).drop n = l := by
  have h := List.drop_left (List.replicate n x) l
  rwa [List.length_replicate] at h

/-- C2 (amended): a continuous stream fed through repeated fixed-size
process calls is conserved — every call returns exactly as many samples
as it consumes, so the total output count equals the total input count;
the first `delay` output samples are zero-filled warm-up silence, and
after discarding them the output is exactly the first
`total − delay` enhanced-window samples in production order (no loss,
duplication or reordering; the final `delay` enhanced samples remain
buffered in the adapter). -/
theorem claim_C2_stream_conservation (e : List ℚ → List ℚ)
    (hlen : ∀ w, (e w).length = w.length) (W F : Nat) (hW : 0 < W)
    (fs : List (List ℚ)) (hf : ∀ f ∈ fs, f.length = F) :
    (runAdapter e W (adapterInit (adapterDelay F W)) fs).1.length
        = fs.flatten.length ∧
    (runAdapter e W (adapterInit (adapterDelay F W)) fs).1.take (adapterDelay F W)
        = List.replicate (min (adapterDelay F W) fs.flatten.length) 0 ∧
    (runAdapter e W (adapterInit (adapterDelay F W)) fs).1.drop (adapterDelay F W)
        = (enhanceWindows e W fs.flatten).take
            (fs.flatten.length - adapterDelay F W) := by
  rw [runAdapter_from_init e hlen W F hW fs hf]
  dsimp only
  have hT : fs.flatten.length = fs.length * F := length_flatten_of_forall fs F hf
  have hmod : (fs.length * F) % W ≤ adapterDelay F W :=
    mod_mul_le_adapterDelay F W hW fs.length
  have hE : (enhanceWindows e W fs.flatten).length
      = W * (fs.flatten.length / W) := length_enhanceWindows e hlen W _
  have hmd := Nat.mod_add_div fs.flatten.length W
  refine ⟨?_, ?_, ?_⟩
  · rw [List.length_take, List.length_append, List.length_replicate, hE]
    have hle : fs.flatten.length
        ≤ adapterDelay F W + W * (fs.flatten.length / W) := by
      rw [hT] at hmd ⊢
      omega
    exact min_eq_left hle
  · rw [List.take_take,
      List.take_append_of_le_length (by rw [List.length_replicate]; omega),
      List.take_replicate]
    congr 1
    omega
  · rw [List.drop_take, drop_replicate_append]

theorem claim_C2_witness :
    (runAdapter (fun w => w) 2 (adapterInit (adapterDelay 3 2)) [[1, 2, 3]]).1.length
        = ([[(1 : ℚ), 2, 3]]).flatten.length ∧
    (runAdapter (fun w => w) 2 (adapterInit (adapterDelay 3 2))
        [[1, 2, 3]]).1.drop (adapterDelay 3 2)
      = (enhanceWindows (fun w => w) 2 ([[(1 : ℚ), 2, 3]]).flatten).take
          (([[(1 : ℚ), 2, 3]]).flatten.length - adapterDelay 3 2) := by
  have h := claim_C2_stream_conservation (fun w => w) (fun w => rfl) 2 3
    (by omega) [[1, 2, 3]] (by decide)
  exact ⟨h.1, h.2.2⟩

/-- C2, counterexample to the claim as stated: with host frame size 3
and native window size 2 the warm-up delay is one sample; after one
process call of three samples and discarding the one warm-up sample,
only two output samples remain — not three, so the discarded-output
count does not equal the input count (the conservation holds before
discarding, as the amended claim states). -/
theorem claim_C2_counterexample :
    ((runAdapter (fun w => w) 2 (adapterInit (adapterDelay 3 2))
        [[1, 2, 3]]).1.drop (adapterDelay 3 2)).length
      ≠ ([[(1 : ℚ), 2, 3]]).flatten.length := by decide

end AicSdk
